import Mathlib

/-!
Verification of the `FlaggedBitfield` class (src/mod.ts) of the
`flagged-bitfield` package: a mask-aware bitfield over a named flag
definition, with input normalization (`resolve`), mutating operations
(`add`, `remove`, `invert`, `freeze`), derivation operations (`with`,
`without`, `union`, `missing`, `complement`, `intersection`, `difference`,
`symmetricDifference`), queries (`has`, `any`, `isFrozen`) and enumeration
(iteration, `toArray`, `entries`, `findIndex`).

Modelling conventions:
* Flag values are TypeScript `bigint`/`number` values; the package's data
  model declares them non-negative, so they are embedded as `Nat`.  The
  bigint expression `~x & m` (with `m ≥ 0` finite) equals `andNot m x`
  ("m with the bits of x cleared"), and `x & ~y & m` equals
  `andNot x y &&& m`; `andNot` is used wherever the source complements an
  arbitrary-precision integer under a finite conjunct.
* A flag definition (`static Flags`) is an ordered association list of
  name/value pairs, mirroring a JS record's own enumerable keys.
* An instance's private fields `#bitfield` and `#frozen` form the state
  `FB`.  The field `#con` (the class reference) is passed explicitly as
  the `flags` argument of every operation; `#validFlags` is a pure
  function of the definition and is recomputed by `validFlags`.
* The `Bit` input type mirrors the accepted runtime shapes: `undefined`,
  booleans, numbers/bigints, strings, other `FlaggedBitfield` instances
  (of any class — the `instanceof` check accepts all of them, so the
  embedding records just the foreign instance's current `.bitfield`
  value), arrays of the above, and a catch-all for every other runtime
  value (which the source resolves to `0n`).
* `Array.prototype.sort` with the comparator `a[1] < b[1] ? -1 : 1` sorts
  ascending by value; its order on ties is not pinned down by the
  comparator, and no claim depends on tie order, so an insertion sort by
  strict value comparison stands in for it.
* `Object.freeze(this)` (the structural half of freezing) is not
  representable in a value-level model; the `#frozen` boolean flag that
  gates every mutating entry point is modelled.
* Object identity for the "returns a new instance" claims is modelled by
  an allocation counter: `Ref` pairs an instance state with an id, and a
  constructor call consumes a fresh id.
-/

namespace FlaggedBitfield

/-- A flag definition: the class-level `static Flags` record, as an ordered
list of flag-name/value pairs. -/
abbrev FlagDef := List (String × Nat)

/-- `static getMask()`: OR-reduction of all declared flag values, starting
from `0n`. -/
def getMask (flags : FlagDef) : Nat :=
  flags.foldl (fun a p => a ||| p.2) 0

/-- `static getMaxBit()`: MAX-reduction of all declared flag values,
starting from `0n`. -/
def getMaxBit (flags : FlagDef) : Nat :=
  flags.foldl (fun a p => max a p.2) 0

/-- `x & ~m` on non-negative arbitrary-precision integers: `x` with the
bits of `m` cleared.  Written with XOR/AND (rather than `Nat.ldiff`) so
that it evaluates on concrete inputs. -/
def andNot (x m : Nat) : Nat :=
  x ^^^ (x &&& m)

theorem testBit_andNot (x m i : Nat) :
    (andNot x m).testBit i = (x.testBit i && !(m.testBit i)) := by
  unfold andNot
  rw [Nat.testBit_xor, Nat.testBit_land]
  cases x.testBit i <;> cases m.testBit i <;> rfl

/-- The accepted runtime shapes of a `Bit<T>` argument.  `inst v` is
another `FlaggedBitfield` instance whose current `.bitfield` is `v` (the
source reads nothing else from it); `other` is any runtime value of a
shape not otherwise listed (`null`, objects, symbols, ...), which falls
through to the final `return 0n`. -/
inductive Bit where
  | undef : Bit
  | bool : Bool → Bit
  | num : Nat → Bit
  | str : String → Bit
  | inst : Nat → Bit
  | arr : List Bit → Bit
  | other : Bit

/-- The string branch of `resolve`: `safeIn(this.Flags, bits)` guards a
record lookup; an absent key falls through to `return 0n`. -/
def lookupFlag (flags : FlagDef) (s : String) : Nat :=
  if (List.lookup s flags).isSome then (List.lookup s flags).getD 0 else 0

mutual

/-- `static resolve(bits)` from src/mod.ts: arrays are OR-reduced via
`Array.prototype.reduce` with accumulator `0n`; `undefined` resolves to
`0n`; a boolean is converted by `BigInt` and then handled by the numeric
branch (so it is masked); another instance resolves to its raw
`.bitfield`; numbers/bigints are masked with `getMask()`; strings are
looked up in `Flags`; anything else resolves to `0n`. -/
def resolve (flags : FlagDef) : Bit → Nat
  | .arr bs => resolveList flags bs 0
  | .undef => 0
  | .bool b => (if b then 1 else 0) &&& getMask flags
  | .inst v => v
  | .num n => n &&& getMask flags
  | .str s => lookupFlag flags s
  | .other => 0

/-- The `reduce((a, b) => a | this.resolve(b), 0n)` loop of `resolve`,
with explicit accumulator. -/
def resolveList (flags : FlagDef) : List Bit → Nat → Nat
  | [], a => a
  | b :: bs, a => resolveList flags bs (a ||| resolve flags b)

end

/-- Instance state: the private fields `#bitfield` and `#frozen`. -/
structure FB where
  bitfield : Nat
  frozen : Bool
deriving DecidableEq

/-- The constructor: `this.#bitfield = this.#con.resolve(bits)` with
`#frozen` initialized to `false`.  (Constructing with no argument passes
`DefaultBit`, a bigint, i.e. the input `Bit.num defaultBit`.) -/
def mkFB (flags : FlagDef) (bits : Bit) : FB :=
  { bitfield := resolve flags bits, frozen := false }

/-- `add(bit)`: frozen instances are returned unchanged; otherwise
`#bitfield = (#bitfield | resolve(bit)) & getMask()`. -/
def add (flags : FlagDef) (s : FB) (bit : Bit) : FB :=
  if s.frozen then s
  else { s with bitfield := (s.bitfield ||| resolve flags bit) &&& getMask flags }

/-- `remove(bit)`: frozen instances are returned unchanged; otherwise
`#bitfield = #bitfield & ~resolve(bit) & getMask()`. -/
def remove (flags : FlagDef) (s : FB) (bit : Bit) : FB :=
  if s.frozen then s
  else { s with bitfield := andNot s.bitfield (resolve flags bit) &&& getMask flags }

/-- `has(bit)`: `(#bitfield & resolve(bit)) !== 0n`. -/
def has (flags : FlagDef) (s : FB) (bit : Bit) : Bool :=
  s.bitfield &&& resolve flags bit != 0

/-- `with(bit)`: `new this.#con(this.#bitfield).add(bit)` — the state of
the returned fresh instance. -/
def withBits (flags : FlagDef) (s : FB) (bit : Bit) : FB :=
  add flags (mkFB flags (.num s.bitfield)) bit

/-- `without(bit)`: `new this.#con(this.#bitfield).remove(bit)`. -/
def without (flags : FlagDef) (s : FB) (bit : Bit) : FB :=
  remove flags (mkFB flags (.num s.bitfield)) bit

/-- `missing()`: `new this.#con(~this.#bitfield & this.#con.getMask())`. -/
def missing (flags : FlagDef) (s : FB) : FB :=
  mkFB flags (.num (andNot (getMask flags) s.bitfield))

/-- `invert()`: frozen instances are returned unchanged; otherwise
`#bitfield = this.missing().bitfield`. -/
def invert (flags : FlagDef) (s : FB) : FB :=
  if s.frozen then s
  else { s with bitfield := (missing flags s).bitfield }

/-- `union(bit)`: alias of `with`. -/
def union (flags : FlagDef) (s : FB) (bit : Bit) : FB :=
  withBits flags s bit

/-- `intersection(bit)`: `new this.#con(this.#bitfield & resolve(bit))`. -/
def intersection (flags : FlagDef) (s : FB) (bit : Bit) : FB :=
  mkFB flags (.num (s.bitfield &&& resolve flags bit))

/-- `difference(bit)`: `new this.#con(this.#bitfield & ~resolve(bit))`. -/
def difference (flags : FlagDef) (s : FB) (bit : Bit) : FB :=
  mkFB flags (.num (andNot s.bitfield (resolve flags bit)))

/-- `symmetricDifference(bit)`: `new this.#con(this.#bitfield ^ resolve(bit))`. -/
def symmetricDifference (flags : FlagDef) (s : FB) (bit : Bit) : FB :=
  mkFB flags (.num (s.bitfield ^^^ resolve flags bit))

/-- `complement()`: `return this.missing()`. -/
def complement (flags : FlagDef) (s : FB) : FB :=
  missing flags s

/-- `equals(bit)`: `this.#bitfield === resolve(bit)`. -/
def equalsBits (flags : FlagDef) (s : FB) (bit : Bit) : Bool :=
  s.bitfield == resolve flags bit

/-- `any(bit)`: `this.intersection(bit).bitfield !== 0n`. -/
def anyBits (flags : FlagDef) (s : FB) (bit : Bit) : Bool :=
  (intersection flags s bit).bitfield != 0

/-- `freeze()`: sets `#frozen = true` and returns the same instance.
(The accompanying `Object.freeze(this)` is structural and not part of the
value-level state.) -/
def freeze (s : FB) : FB :=
  { s with frozen := true }

/-- `isFrozen()`: returns `#frozen`. -/
def isFrozen (s : FB) : Bool :=
  s.frozen

/-- One step of the ascending insertion used to model
`sort((a, b) => (a[1] < b[1] ? -1 : 1))` on the flag entries. -/
def insertAsc (p : String × Nat) : List (String × Nat) → List (String × Nat)
  | [] => [p]
  | q :: rest => if p.2 < q.2 then p :: q :: rest else q :: insertAsc p rest

/-- `#validFlags`: the definition's own entries mapped to
`[name, BigInt(value)]` pairs and sorted ascending by value, computed at
construction.  (Tie order between equal values is not pinned down by the
source's comparator; no claim depends on it.) -/
def validFlags (flags : FlagDef) : List (String × Nat) :=
  flags.foldr insertAsc []

/-- The generator body of `[Symbol.iterator]()`: walk `#validFlags` and
yield each flag whose declared bit overlaps `#bitfield`. -/
def iterFlags (v : Nat) : List (String × Nat) → List String
  | [] => []
  | p :: rest => if v &&& p.2 != 0 then p.1 :: iterFlags v rest else iterFlags v rest

/-- `toArray()`: `[...this]`, the materialized iteration. -/
def toArray (flags : FlagDef) (s : FB) : List String :=
  iterFlags s.bitfield (validFlags flags)

/-- `entries()`: returns `#validFlags`. -/
def entries (flags : FlagDef) : List (String × Nat) :=
  validFlags flags

/-- The indexed loop of `findIndex`. -/
def findIndexAux (pred : String → Bool) : List (String × Nat) → Nat → Int
  | [], _ => -1
  | p :: rest, i => if pred p.1 then (i : Int) else findIndexAux pred rest (i + 1)

/-- `findIndex(predicate)`: scan `#validFlags` (all declared flags, in
ascending declared-value order — the instance's current `#bitfield` is
never consulted), returning the index of the first entry whose name
satisfies the predicate, else `-1`. -/
def findIndex (flags : FlagDef) (pred : String → Bool) : Int :=
  findIndexAux pred (validFlags flags) 0

mutual

/-- An input is mask-safe for mask `m` when every embedded instance value
in it is a submask of `m`.  Every shape the source can build without
mixing two flag definitions is mask-safe; a foreign instance whose own
mask exceeds `m` need not be. -/
def maskSafe (m : Nat) : Bit → Bool
  | .inst v => andNot v m == 0
  | .arr bs => maskSafeList m bs
  | _ => true

/-- `maskSafe` on each element of an array input. -/
def maskSafeList (m : Nat) : List Bit → Bool
  | [] => true
  | b :: bs => maskSafe m b && maskSafeList m bs

end

/-- The central invariant claimed by the spec: `value & ~mask == 0`. -/
def invariant (flags : FlagDef) (s : FB) : Prop :=
  andNot s.bitfield (getMask flags) = 0

instance (flags : FlagDef) (s : FB) : Decidable (invariant flags s) := by
  unfold invariant
  infer_instance

/-- An instance together with its object identity, modelled as an
allocation-order id. -/
structure Ref where
  id : Nat
  st : FB
deriving DecidableEq

/-- `new this.#con(bits)`: allocates a fresh object (consuming the next
fresh id) whose state comes from the constructor. -/
def construct (flags : FlagDef) (bits : Bit) (fresh : Nat) : Ref × Nat :=
  (⟨fresh, mkFB flags bits⟩, fresh + 1)

/-- Operational reading of `with(bit)`:
`new this.#con(this.#bitfield).add(bit)` — the receiver is only read, a
fresh instance is allocated and then mutated in place by `add`.  Returns
the receiver after the call, the returned reference, and the next fresh
id. -/
def withOp (flags : FlagDef) (r : Ref) (bit : Bit) (fresh : Nat) : Ref × Ref × Nat :=
  let (n, f) := construct flags (.num r.st.bitfield) fresh
  (r, { n with st := add flags n.st bit }, f)

/-- Operational reading of `without(bit)`:
`new this.#con(this.#bitfield).remove(bit)`. -/
def withoutOp (flags : FlagDef) (r : Ref) (bit : Bit) (fresh : Nat) : Ref × Ref × Nat :=
  let (n, f) := construct flags (.num r.st.bitfield) fresh
  (r, { n with st := remove flags n.st bit }, f)

/-- Operational reading of `union(bit)`: `return this.with(bit)`. -/
def unionOp (flags : FlagDef) (r : Ref) (bit : Bit) (fresh : Nat) : Ref × Ref × Nat :=
  withOp flags r bit fresh

/-- Operational reading of `missing()`:
`new this.#con(~this.#bitfield & this.#con.getMask())`. -/
def missingOp (flags : FlagDef) (r : Ref) (fresh : Nat) : Ref × Ref × Nat :=
  let (n, f) := construct flags (.num (andNot (getMask flags) r.st.bitfield)) fresh
  (r, n, f)

/-- Operational reading of `complement()`: `return this.missing()`. -/
def complementOp (flags : FlagDef) (r : Ref) (fresh : Nat) : Ref × Ref × Nat :=
  missingOp flags r fresh

/-- Operational reading of `intersection(bit)`:
`new this.#con(this.#bitfield & resolve(bit))`. -/
def intersectionOp (flags : FlagDef) (r : Ref) (bit : Bit) (fresh : Nat) : Ref × Ref × Nat :=
  let (n, f) := construct flags (.num (r.st.bitfield &&& resolve flags bit)) fresh
  (r, n, f)

/-- Operational reading of `difference(bit)`:
`new this.#con(this.#bitfield & ~resolve(bit))`. -/
def differenceOp (flags : FlagDef) (r : Ref) (bit : Bit) (fresh : Nat) : Ref × Ref × Nat :=
  let (n, f) := construct flags (.num (andNot r.st.bitfield (resolve flags bit))) fresh
  (r, n, f)

/-- Operational reading of `symmetricDifference(bit)`:
`new this.#con(this.#bitfield ^ resolve(bit))`. -/
def symmetricDifferenceOp (flags : FlagDef) (r : Ref) (bit : Bit) (fresh : Nat) : Ref × Ref × Nat :=
  let (n, f) := construct flags (.num (r.st.bitfield ^^^ resolve flags bit)) fresh
  (r, n, f)

mutual

/-- The resolution rule exactly as the specification words it, case by
case: absent/undefined yields 0; a boolean yields 1 if true, 0 if false,
before masking (masking applies at the end to numeric inputs); an array
yields the left-to-right bitwise OR of each element's resolution (empty
array yields 0); a bitfield instance yields that instance's current value
used as-is without re-masking; an integer yields the integer AND the
mask; a declared flag name yields its declared value unmasked; an unknown
string or any other input yields 0. -/
def resolveSpec (flags : FlagDef) : Bit → Nat
  | .undef => 0
  | .bool b => (if b then 1 else 0) &&& getMask flags
  | .num n => n &&& getMask flags
  | .str s =>
    match List.lookup s flags with
    | some v => v
    | none => 0
  | .inst v => v
  | .arr bs => resolveSpecList flags bs
  | .other => 0

/-- Left-to-right OR of the elements' resolutions, as the spec words it. -/
def resolveSpecList (flags : FlagDef) : List Bit → Nat
  | [] => 0
  | b :: bs => resolveSpec flags b ||| resolveSpecList flags bs

end

/-- The flag definition of the README's quick-start example. -/
def permDef : FlagDef :=
  [("Read", 1), ("Write", 2), ("Execute", 4), ("Admin", 8)]

/-- A definition containing a zero-valued flag. -/
def zeroDef : FlagDef :=
  [("Zero", 0), ("Read", 1)]

/-- A one-flag definition whose mask is `2`. -/
def defX : FlagDef :=
  [("X", 2)]

/-- A one-flag definition whose mask is `1`; an instance of `defX` can
carry the bit `2`, which lies outside this mask. -/
def defY : FlagDef :=
  [("Y", 1)]

example : resolve permDef (.arr [.str "Write", .str "Read"]) = 3 := by decide
example : toArray permDef (mkFB permDef (.arr [.str "Write", .str "Read"])) = ["Read", "Write"] := by decide
example : getMask permDef = 15 := by decide
example : findIndex permDef (fun n => n == "Write") = 1 := by decide

theorem ldiff_eq_zero_iff (x m : Nat) :
    andNot x m = 0 ↔ ∀ i, x.testBit i = true → m.testBit i = true := by
  constructor
  · intro h i hx
    have hbit : (andNot x m).testBit i = Nat.testBit 0 i := by rw [h]
    rw [testBit_andNot, Nat.zero_testBit, hx] at hbit
    cases hm : m.testBit i
    · rw [hm] at hbit
      simp at hbit
    · rfl
  · intro h
    apply Nat.eq_of_testBit_eq
    intro i
    rw [testBit_andNot, Nat.zero_testBit]
    cases hx : x.testBit i
    · rfl
    · rw [h i hx]
      rfl

theorem land_mask_ldiff (x m : Nat) : andNot (x &&& m) m = 0 := by
  rw [ldiff_eq_zero_iff]
  intro i hi
  rw [Nat.testBit_land] at hi
  exact (Bool.and_eq_true _ _ |>.mp hi).2

theorem lor_ldiff_zero (a b m : Nat) (h1 : andNot a m = 0) (h2 : andNot b m = 0) :
    andNot (a ||| b) m = 0 := by
  rw [ldiff_eq_zero_iff] at h1 h2 ⊢
  intro i hi
  rw [Nat.testBit_lor] at hi
  rcases Bool.or_eq_true _ _ |>.mp hi with h | h
  · exact h1 i h
  · exact h2 i h

theorem ldiff_mask_ldiff (m y : Nat) : andNot (andNot m y) m = 0 := by
  rw [ldiff_eq_zero_iff]
  intro i hi
  rw [testBit_andNot] at hi
  exact (Bool.and_eq_true _ _ |>.mp hi).1

theorem land_eq_self_of_ldiff_eq_zero (b m : Nat) (h : andNot b m = 0) :
    b &&& m = b := by
  rw [ldiff_eq_zero_iff] at h
  apply Nat.eq_of_testBit_eq
  intro i
  rw [Nat.testBit_land]
  cases hb : b.testBit i
  · rfl
  · rw [h i hb]
    rfl

theorem ldiff_ldiff_eq_land (m b : Nat) :
    andNot m (andNot m b) = b &&& m := by
  apply Nat.eq_of_testBit_eq
  intro i
  rw [testBit_andNot, testBit_andNot, Nat.testBit_land]
  cases m.testBit i <;> cases b.testBit i <;> rfl

theorem testBit_foldl_lor (l : FlagDef) (acc i : Nat) :
    (l.foldl (fun a p => a ||| p.2) acc).testBit i
      = (acc.testBit i || l.any fun p => p.2.testBit i) := by
  induction l generalizing acc with
  | nil => simp
  | cons p rest ih =>
    simp only [List.foldl_cons, List.any_cons]
    rw [ih, Nat.testBit_lor, Bool.or_assoc]

theorem mem_ldiff_getMask (flags : FlagDef) (name : String) (v : Nat)
    (h : (name, v) ∈ flags) : andNot v (getMask flags) = 0 := by
  rw [ldiff_eq_zero_iff]
  intro i hi
  unfold getMask
  rw [testBit_foldl_lor, Nat.zero_testBit, Bool.false_or, List.any_eq_true]
  exact ⟨(name, v), h, hi⟩

theorem lookup_mem (flags : FlagDef) (s : String) (v : Nat)
    (h : List.lookup s flags = some v) : (s, v) ∈ flags := by
  induction flags with
  | nil => simp [List.lookup] at h
  | cons p rest ih =>
    rw [List.lookup] at h
    by_cases hk : (s == p.1) = true
    · rw [hk] at h
      have hs : s = p.1 := by simpa using hk
      have hv : p.2 = v := by simpa using h
      have hp : (s, v) = p := by
        rw [hs, ← hv]
      rw [hp]
      exact List.mem_cons_self p rest
    · rw [Bool.eq_false_iff.mpr hk] at h
      right
      exact ih h

theorem lookupFlag_ldiff (flags : FlagDef) (s : String) :
    andNot (lookupFlag flags s) (getMask flags) = 0 := by
  unfold lookupFlag
  cases h : List.lookup s flags with
  | none => simp [ldiff_eq_zero_iff]
  | some v =>
    simp only [Option.isSome_some, if_pos, Option.getD_some]
    exact mem_ldiff_getMask flags s v (lookup_mem flags s v h)

mutual

theorem resolve_ldiff (flags : FlagDef) (b : Bit)
    (h : maskSafe (getMask flags) b = true) :
    andNot (resolve flags b) (getMask flags) = 0 := by
  cases b with
  | undef => simp [resolve, ldiff_eq_zero_iff]
  | bool v => exact land_mask_ldiff _ _
  | num n => exact land_mask_ldiff _ _
  | str s => exact lookupFlag_ldiff flags s
  | inst v =>
    rw [maskSafe] at h
    show andNot v (getMask flags) = 0
    simpa using h
  | arr bs =>
    rw [maskSafe] at h
    exact resolveList_ldiff flags bs 0 (by simp [ldiff_eq_zero_iff]) h
  | other => simp [resolve, ldiff_eq_zero_iff]

theorem resolveList_ldiff (flags : FlagDef) (bs : List Bit) (acc : Nat)
    (hacc : andNot acc (getMask flags) = 0)
    (h : maskSafeList (getMask flags) bs = true) :
    andNot (resolveList flags bs acc) (getMask flags) = 0 := by
  cases bs with
  | nil => exact hacc
  | cons b rest =>
    rw [maskSafeList, Bool.and_eq_true] at h
    rw [resolveList]
    exact resolveList_ldiff flags rest _
      (lor_ldiff_zero _ _ _ hacc (resolve_ldiff flags b h.1)) h.2

end

mutual

theorem resolve_eq_spec (flags : FlagDef) (b : Bit) :
    resolveSpec flags b = resolve flags b := by
  cases b with
  | undef => rfl
  | bool v => rfl
  | num n => rfl
  | inst v => rfl
  | other => rfl
  | str s =>
    rw [resolve, resolveSpec, lookupFlag]
    cases List.lookup s flags with
    | none => rfl
    | some v => rfl
  | arr bs =>
    rw [resolve, resolveSpec, resolveList_eq_spec flags bs 0, Nat.zero_or]

theorem resolveList_eq_spec (flags : FlagDef) (bs : List Bit) (acc : Nat) :
    resolveList flags bs acc = acc ||| resolveSpecList flags bs := by
  cases bs with
  | nil => rw [resolveList, resolveSpecList, Nat.or_zero]
  | cons b rest =>
    rw [resolveList, resolveSpecList, resolveList_eq_spec flags rest _,
      Nat.or_assoc, resolve_eq_spec flags b]

end

theorem iterFlags_eq_filter (v : Nat) (l : List (String × Nat)) :
    iterFlags v l = (l.filter fun p => v &&& p.2 != 0).map Prod.fst := by
  induction l with
  | nil => rfl
  | cons p rest ih =>
    rw [iterFlags, List.filter_cons]
    by_cases h : (v &&& p.2 != 0) = true
    · rw [if_pos h, if_pos h, List.map_cons, ih]
    · rw [if_neg h, if_neg h, ih]

theorem insertAsc_perm (p : String × Nat) (l : List (String × Nat)) :
    List.Perm (insertAsc p l) (p :: l) := by
  induction l with
  | nil => rfl
  | cons q rest ih =>
    rw [insertAsc]
    by_cases h : p.2 < q.2
    · rw [if_pos h]
    · rw [if_neg h]
      exact List.Perm.trans (List.Perm.cons q ih) (List.Perm.swap p q rest)

theorem validFlags_perm (flags : FlagDef) : List.Perm (validFlags flags) flags := by
  unfold validFlags
  induction flags with
  | nil => rfl
  | cons p rest ih =>
    rw [List.foldr_cons]
    exact List.Perm.trans (insertAsc_perm _ _) (List.Perm.cons p ih)

theorem insertAsc_sorted (p : String × Nat) (l : List (String × Nat))
    (h : List.Pairwise (fun a b => a.2 ≤ b.2) l) :
    List.Pairwise (fun a b => a.2 ≤ b.2) (insertAsc p l) := by
  induction l with
  | nil => simp [insertAsc]
  | cons q rest ih =>
    rw [List.pairwise_cons] at h
    rw [insertAsc]
    by_cases hlt : p.2 < q.2
    · rw [if_pos hlt, List.pairwise_cons]
      constructor
      · intro x hx
        rcases List.mem_cons.mp hx with hx1 | hx1
        · rw [hx1]
          exact Nat.le_of_lt hlt
        · exact Nat.le_trans (Nat.le_of_lt hlt) (h.1 x hx1)
      · rw [List.pairwise_cons]
        exact h
    · rw [if_neg hlt, List.pairwise_cons]
      constructor
      · intro x hx
        have hx2 : x ∈ p :: rest := (insertAsc_perm p rest).mem_iff.mp hx
        rcases List.mem_cons.mp hx2 with hx3 | hx3
        · rw [hx3]
          exact Nat.le_of_not_lt hlt
        · exact h.1 x hx3
      · exact ih h.2

theorem validFlags_sorted (flags : FlagDef) :
    List.Pairwise (fun a b => a.2 ≤ b.2) (validFlags flags) := by
  unfold validFlags
  induction flags with
  | nil => simp
  | cons p rest ih =>
    rw [List.foldr_cons]
    exact insertAsc_sorted p _ ih

theorem findIndexAux_neg (pred : String → Bool) (l : List (String × Nat)) :
    ∀ start : Nat,
      (findIndexAux pred l start = -1 ↔ (l.all fun p => !(pred p.1)) = true) := by
  induction l with
  | nil => intro start; simp [findIndexAux]
  | cons p rest ih =>
    intro start
    rw [findIndexAux, List.all_cons]
    by_cases h : pred p.1 = true
    · rw [if_pos h, h]
      simp only [Bool.not_true, Bool.false_and]
      constructor
      · intro hc
        exact absurd hc (by omega)
      · intro hc
        exact absurd hc (by simp)
    · rw [if_neg h, Bool.not_eq_true] at *
      rw [h]
      simp only [Bool.not_false, Bool.true_and]
      exact ih (start + 1)

theorem findIndexAux_pos (pred : String → Bool) (l : List (String × Nat)) :
    ∀ start i : Nat,
      findIndexAux pred l start = (i : Int) →
      start ≤ i ∧ ((l.take (i - start)).all fun p => !(pred p.1)) = true ∧
        ((l.drop (i - start)).head?.any fun p => pred p.1) = true := by
  induction l with
  | nil =>
    intro start i h
    rw [findIndexAux] at h
    exact absurd h (by omega)
  | cons p rest ih =>
    intro start i h
    rw [findIndexAux] at h
    by_cases hp : pred p.1 = true
    · rw [if_pos hp] at h
      have hsi : start = i := by omega
      refine ⟨Nat.le_of_eq hsi, ?_, ?_⟩
      · rw [hsi, Nat.sub_self, List.take_zero, List.all_nil]
      · rw [hsi, Nat.sub_self, List.drop_zero, List.head?_cons, Option.any_some, hp]
    · rw [if_neg hp] at h
      obtain ⟨h1, h2, h3⟩ := ih (start + 1) i h
      have hk : i - start = (i - (start + 1)) + 1 := by omega
      refine ⟨by omega, ?_, ?_⟩
      · rw [hk, List.take_succ_cons, List.all_cons, Bool.not_eq_true] at *
        rw [hp]
        simp only [Bool.not_false, Bool.true_and]
        exact h2
      · rw [hk, List.drop_succ_cons]
        exact h3

/-- C1 counterexample: an instance of `defX` (mask 2) holding value 2 —
itself satisfying its own mask invariant — passed as the constructor
input of a `defY` (mask 1) instance is trusted unmasked by `resolve`, so
the freshly constructed instance holds value 2 and violates
`value & ~mask == 0` immediately after construction. -/
theorem mask_invariant_cex :
    invariant defX (mkFB defX (.num 2)) ∧
      ¬ invariant defY (mkFB defY (.inst (mkFB defX (.num 2)).bitfield)) := by
  decide

/-- C1 (amended): `value & ~mask == 0` holds after construction for every
mask-safe input (any accepted input in which every embedded bitfield
instance's value is itself within the receiver's mask — in particular
every input when a single flag definition is in play); every derivation
operation establishes the invariant unconditionally on its result — for
every receiver, in-mask or not, and every accepted bits input — and every
mutating operation preserves it, again for every accepted bits input.
Construction from a mixed-definition instance carrying bits outside the
receiver's mask violates it.  Each conjunct carries exactly the
hypothesis it needs: construction needs mask-safety of the input, the
mutators need the receiver's invariant (a frozen receiver is returned
as-is), and the derivation operations need nothing. -/
theorem mask_invariant (flags : FlagDef) (s : FB) (b : Bit) :
    (maskSafe (getMask flags) b = true → invariant flags (mkFB flags b)) ∧
    (invariant flags s →
      invariant flags (add flags s b) ∧
      invariant flags (remove flags s b) ∧
      invariant flags (invert flags s)) ∧
    invariant flags (withBits flags s b) ∧
    invariant flags (without flags s b) ∧
    invariant flags (union flags s b) ∧
    invariant flags (missing flags s) ∧
    invariant flags (complement flags s) ∧
    invariant flags (intersection flags s b) ∧
    invariant flags (difference flags s b) ∧
    invariant flags (symmetricDifference flags s b) := by
  have key : ∀ x : Nat, andNot (x &&& getMask flags) (getMask flags) = 0 :=
    fun x => land_mask_ldiff x (getMask flags)
  have hadd : ∀ t : FB, invariant flags t → invariant flags (add flags t b) := by
    intro t ht
    unfold add invariant
    by_cases hf : t.frozen
    · rw [if_pos hf]
      exact ht
    · rw [if_neg hf]
      exact key _
  have hrem : ∀ t : FB, invariant flags t → invariant flags (remove flags t b) := by
    intro t ht
    unfold remove invariant
    by_cases hf : t.frozen
    · rw [if_pos hf]
      exact ht
    · rw [if_neg hf]
      exact key _
  have hmk : ∀ x : Nat, invariant flags (mkFB flags (.num x)) := by
    intro x
    unfold invariant mkFB
    exact key x
  refine ⟨fun hb => resolve_ldiff flags b hb, fun hs => ⟨hadd s hs, hrem s hs, ?_⟩,
    hadd _ (hmk _), hrem _ (hmk _), hadd _ (hmk _), hmk _, hmk _, hmk _, hmk _, hmk _⟩
  unfold invert invariant
  by_cases hf : s.frozen
  · rw [if_pos hf]
    exact hs
  · rw [if_neg hf]
    exact key _

/-- C1 witness: a concrete mask-safe construction, a concrete mutation of
an in-mask receiver, and a concrete derivation on an out-of-mask receiver
(constructed from a foreign `defX` instance, so its value 2 exceeds
`defY`'s mask 1) all satisfy the invariant. -/
theorem mask_invariant_witness :
    invariant permDef (mkFB permDef (.str "Execute")) ∧
      invariant permDef (add permDef (mkFB permDef (.num 3)) (.str "Execute")) ∧
      invariant defY (intersection defY
        (mkFB defY (.inst (mkFB defX (.num 2)).bitfield)) (.inst 2)) :=
  ⟨(mask_invariant permDef (mkFB permDef (.num 3)) (.str "Execute")).1 (by decide),
    ((mask_invariant permDef (mkFB permDef (.num 3)) (.str "Execute")).2.1
      (by decide)).1,
    (mask_invariant defY (mkFB defY (.inst (mkFB defX (.num 2)).bitfield))
      (.inst 2)).2.2.2.2.2.2.2.1⟩

/-- C2: `resolve` maps each accepted input shape to an integer exactly as
the specification words it: absent/undefined yields 0; a boolean yields 1
if true and 0 if false, before masking; an array yields the left-to-right
bitwise OR of each element's resolution (empty array yields 0); a
bitfield instance yields its current value as-is without re-masking; an
integer yields the integer AND the mask; a declared flag name yields its
declared value unmasked; an unknown string or any other input yields 0. -/
theorem resolve_matches_spec (flags : FlagDef) (b : Bit) :
    resolve flags b = resolveSpec flags b :=
  (resolve_eq_spec flags b).symm

/-- C3 counterexample: on a `defY` (mask 1) instance constructed from a
`defX` (mask 2) instance holding value 2, querying those same foreign
bits gives `has = true` (raw overlap 2 is nonzero) but `any = false`
(`intersection` re-masks the overlap through the constructor, and
`2 & 1 = 0`). -/
theorem any_eq_has_cex :
    has defY (mkFB defY (.inst (mkFB defX (.num 2)).bitfield))
        (.inst (mkFB defX (.num 2)).bitfield) = true ∧
      anyBits defY (mkFB defY (.inst (mkFB defX (.num 2)).bitfield))
        (.inst (mkFB defX (.num 2)).bitfield) = false := by
  decide

/-- C3 (amended): for every instance whose value is within the mask
(every instance not constructed from a mixed-definition instance carrying
out-of-mask bits), `any(bits)` returns the same boolean as `has(bits)` for
every accepted bits input, namely whether `value & resolve(bits) != 0`. -/
theorem any_eq_has (flags : FlagDef) (s : FB) (b : Bit) (hs : invariant flags s) :
    anyBits flags s b = has flags s b ∧
      (has flags s b = true ↔ s.bitfield &&& resolve flags b ≠ 0) := by
  have h1 : s.bitfield &&& resolve flags b &&& getMask flags
      = s.bitfield &&& resolve flags b := by
    rw [Nat.and_assoc, Nat.and_comm (resolve flags b) (getMask flags), ← Nat.and_assoc,
      land_eq_self_of_ldiff_eq_zero _ _ hs]
  constructor
  · unfold anyBits intersection mkFB has
    show ((s.bitfield &&& resolve flags b &&& getMask flags) != 0)
        = (s.bitfield &&& resolve flags b != 0)
    rw [h1]
  · unfold has
    exact bne_iff_ne

/-- C3 witness: on a concrete in-mask instance, `any` and `has` agree. -/
theorem any_eq_has_witness :
    anyBits permDef (mkFB permDef (.str "Read")) (.arr [.str "Read", .str "Write"])
      = has permDef (mkFB permDef (.str "Read")) (.arr [.str "Read", .str "Write"]) :=
  (any_eq_has permDef (mkFB permDef (.str "Read"))
    (.arr [.str "Read", .str "Write"]) (by decide)).1

/-- C4: `frozen` is false at construction; `freeze()` is idempotent;
after `freeze()`, `add`, `remove` and `invert` return the receiver with
both value and frozen flag unchanged; and `frozen` is monotonic — each
mutating operation leaves it unchanged and `freeze` sets it to true, so
it never reverts to false. -/
theorem freeze_contract (flags : FlagDef) (s : FB) (b : Bit) :
    (mkFB flags b).frozen = false ∧
    freeze (freeze s) = freeze s ∧
    add flags (freeze s) b = freeze s ∧
    remove flags (freeze s) b = freeze s ∧
    invert flags (freeze s) = freeze s ∧
    (add flags s b).frozen = s.frozen ∧
    (remove flags s b).frozen = s.frozen ∧
    (invert flags s).frozen = s.frozen ∧
    (freeze s).frozen = true := by
  refine ⟨rfl, rfl, ?_, ?_, ?_, ?_, ?_, ?_, rfl⟩
  · simp [add, freeze]
  · simp [remove, freeze]
  · simp [invert, freeze]
  · unfold add
    by_cases hf : s.frozen
    · rw [if_pos hf]
    · rw [if_neg hf]
  · unfold remove
    by_cases hf : s.frozen
    · rw [if_pos hf]
    · rw [if_neg hf]
  · unfold invert
    by_cases hf : s.frozen
    · rw [if_pos hf]
    · rw [if_neg hf]

/-- C5: the ascending iteration (and `toArray()`) yields exactly the
declared flag names whose declared value overlaps the current value
(`value & v != 0`), in the order of `#validFlags`, which is a permutation
of the declared entries sorted ascending by declared value; on the
`{Read:1, Write:2, Execute:4, Admin:8}` definition, an instance built
from `['Write','Read']` has `toArray() = ['Read','Write']`. -/
theorem iteration_spec (flags : FlagDef) (s : FB) :
    toArray flags s
        = ((validFlags flags).filter fun p => s.bitfield &&& p.2 != 0).map Prod.fst ∧
    List.Perm (validFlags flags) flags ∧
    List.Pairwise (fun a b : String × Nat => a.2 ≤ b.2) (validFlags flags) ∧
    toArray permDef (mkFB permDef (.arr [.str "Write", .str "Read"])) = ["Read", "Write"] :=
  ⟨iterFlags_eq_filter s.bitfield (validFlags flags), validFlags_perm flags,
    validFlags_sorted flags, by decide⟩

/-- C6 counterexample: on `{Zero:0, Read:1}`, the iterator's presence test
is `value & declaredValue != 0`, which is false for a zero-valued flag no
matter the value; the instance holding `Read` does not yield `Zero`. -/
theorem zero_flag_cex :
    ("Zero", 0) ∈ zeroDef ∧
      "Zero" ∉ toArray zeroDef (mkFB zeroDef (.num 1)) := by
  decide

/-- C6 (amended): a flag declared with value 0 counts as never present —
the ascending iteration (and therefore `toArray()`) never yields its
name, regardless of the instance's current value (provided every entry
declared under that name has value 0). -/
theorem zero_flag_never_present (flags : FlagDef) (s : FB) (name : String)
    (_hmem : (name, 0) ∈ flags)
    (huniq : (flags.all fun p => !(p.1 == name) || p.2 == 0) = true) :
    name ∉ toArray flags s := by
  intro h
  unfold toArray at h
  rw [iterFlags_eq_filter] at h
  rcases List.mem_map.mp h with ⟨p, hp, hname⟩
  rcases List.mem_filter.mp hp with ⟨hpv, hcond⟩
  have hpf : p ∈ flags := (validFlags_perm flags).mem_iff.mp hpv
  have hall := List.all_eq_true.mp huniq p hpf
  have hz : p.2 = 0 := by
    rw [hname] at hall
    simpa using hall
  rw [hz, Nat.and_zero] at hcond
  simp at hcond

/-- C6 witness: on the `{Zero:0, Read:1}` definition, `Zero` is absent
from the iteration of the all-zero instance as well. -/
theorem zero_flag_never_present_witness :
    "Zero" ∉ toArray zeroDef (mkFB zeroDef (.num 0)) :=
  zero_flag_never_present zeroDef (mkFB zeroDef (.num 0)) "Zero" (by decide) (by decide)

/-- C7: `findIndex(predicate)` scans the full declared-flag ordering
(`entries()`, i.e. `#validFlags`) — the instance's current value is never
consulted, so absent flags are tested too — and returns the index of the
first satisfying entry within that full ordering, or -1 when no declared
flag satisfies the predicate. -/
theorem findIndex_spec (flags : FlagDef) (pred : String → Bool) :
    entries flags = validFlags flags ∧
    (findIndex flags pred = -1 ↔ ((validFlags flags).all fun p => !(pred p.1)) = true) ∧
    ∀ i : Nat, findIndex flags pred = (i : Int) →
      (((validFlags flags).take i).all fun p => !(pred p.1)) = true ∧
      (((validFlags flags).drop i).head?.any fun p => pred p.1) = true := by
  refine ⟨rfl, findIndexAux_neg pred (validFlags flags) 0, ?_⟩
  intro i h
  obtain ⟨h1, h2, h3⟩ := findIndexAux_pos pred (validFlags flags) 0 i h
  rw [Nat.sub_zero] at h2 h3
  exact ⟨h2, h3⟩

/-- C7 witness: on the quick-start definition, `findIndex` of the
predicate matching `Write` is 1: every earlier declared entry fails the
predicate and the entry at index 1 of the full declared ordering
satisfies it. -/
theorem findIndex_spec_witness :
    (((validFlags permDef).take 1).all fun p => !(p.1 == "Write")) = true ∧
      (((validFlags permDef).drop 1).head?.any fun p => p.1 == "Write") = true :=
  (findIndex_spec permDef (fun n => n == "Write")).2.2 1 (by decide)

/-- C8 counterexample: a `defY` (mask 1) instance constructed from a
`defX` (mask 2) instance holds out-of-mask value 2; `complement` re-masks,
so applying it twice yields `value & mask = 0 ≠ 2`. -/
theorem double_complement_cex :
    (complement defY (complement defY
        (mkFB defY (.inst (mkFB defX (.num 2)).bitfield)))).bitfield ≠
      (mkFB defY (.inst (mkFB defX (.num 2)).bitfield)).bitfield := by
  decide

/-- C8 (amended): for any instance x whose value is within the fixed,
unchanged mask (every instance not constructed from a mixed-definition
instance carrying out-of-mask bits), `complement(complement(x)).value ==
x.value`; in general double complement yields `x.value & mask`. -/
theorem double_complement (flags : FlagDef) (x : FB) (hx : invariant flags x) :
    (complement flags (complement flags x)).bitfield = x.bitfield ∧
    ∀ y : FB, (complement flags (complement flags y)).bitfield
      = y.bitfield &&& getMask flags := by
  have hc : ∀ y : FB, (complement flags y).bitfield
      = andNot (getMask flags) y.bitfield := by
    intro y
    show andNot (getMask flags) y.bitfield &&& getMask flags
      = andNot (getMask flags) y.bitfield
    exact land_eq_self_of_ldiff_eq_zero _ _ (ldiff_mask_ldiff _ _)
  have hgen : ∀ y : FB, (complement flags (complement flags y)).bitfield
      = y.bitfield &&& getMask flags := by
    intro y
    rw [hc, hc, ldiff_ldiff_eq_land]
  exact ⟨by rw [hgen, land_eq_self_of_ldiff_eq_zero _ _ hx], hgen⟩

/-- C8 witness: double complement is the identity on a concrete in-mask
instance. -/
theorem double_complement_witness :
    (complement permDef (complement permDef (mkFB permDef (.num 5)))).bitfield
      = (mkFB permDef (.num 5)).bitfield :=
  (double_complement permDef (mkFB permDef (.num 5)) (by decide)).1

/-- C9: every derivation operation, read operationally (the receiver's
fields are only read; a fresh instance is allocated by the constructor
call), returns an instance distinct from the receiver — its allocation id
is the fresh one, different from every existing id — and leaves the
receiver's state (value and frozen flag) unchanged, for every receiver
and accepted bits input. -/
theorem derivation_frame (flags : FlagDef) (r : Ref) (b : Bit) (fresh : Nat)
    (h : r.id < fresh) :
    ((withOp flags r b fresh).1 = r ∧ (withOp flags r b fresh).2.1.id ≠ r.id) ∧
    ((withoutOp flags r b fresh).1 = r ∧ (withoutOp flags r b fresh).2.1.id ≠ r.id) ∧
    ((unionOp flags r b fresh).1 = r ∧ (unionOp flags r b fresh).2.1.id ≠ r.id) ∧
    ((missingOp flags r fresh).1 = r ∧ (missingOp flags r fresh).2.1.id ≠ r.id) ∧
    ((complementOp flags r fresh).1 = r ∧ (complementOp flags r fresh).2.1.id ≠ r.id) ∧
    ((intersectionOp flags r b fresh).1 = r ∧
      (intersectionOp flags r b fresh).2.1.id ≠ r.id) ∧
    ((differenceOp flags r b fresh).1 = r ∧
      (differenceOp flags r b fresh).2.1.id ≠ r.id) ∧
    ((symmetricDifferenceOp flags r b fresh).1 = r ∧
      (symmetricDifferenceOp flags r b fresh).2.1.id ≠ r.id) := by
  have hne : fresh ≠ r.id := by omega
  exact ⟨⟨rfl, hne⟩, ⟨rfl, hne⟩, ⟨rfl, hne⟩, ⟨rfl, hne⟩, ⟨rfl, hne⟩, ⟨rfl, hne⟩,
    ⟨rfl, hne⟩, ⟨rfl, hne⟩⟩

/-- C9 witness: a concrete `with` call leaves the receiver unchanged and
returns an instance with a different identity. -/
theorem derivation_frame_witness :
    (withOp permDef ⟨0, mkFB permDef (.num 1)⟩ (.str "Write") 1).1
        = (⟨0, mkFB permDef (.num 1)⟩ : Ref) ∧
      (withOp permDef ⟨0, mkFB permDef (.num 1)⟩ (.str "Write") 1).2.1.id
        ≠ (⟨0, mkFB permDef (.num 1)⟩ : Ref).id :=
  (derivation_frame permDef ⟨0, mkFB permDef (.num 1)⟩ (.str "Write") 1 (by decide)).1

/-- C10: every instance returned by a derivation operation is unfrozen —
its state comes from a fresh constructor call, so `isFrozen()` is false —
and the result computed on a frozen receiver is the same as on its
unfrozen counterpart: derivation operations work normally on frozen
instances. -/
theorem derivation_unfrozen (flags : FlagDef) (s : FB) (b : Bit) :
    (isFrozen (withBits flags s b) = false
      ∧ withBits flags (freeze s) b = withBits flags s b) ∧
    (isFrozen (without flags s b) = false
      ∧ without flags (freeze s) b = without flags s b) ∧
    (isFrozen (union flags s b) = false
      ∧ union flags (freeze s) b = union flags s b) ∧
    (isFrozen (missing flags s) = false
      ∧ missing flags (freeze s) = missing flags s) ∧
    (isFrozen (complement flags s) = false
      ∧ complement flags (freeze s) = complement flags s) ∧
    (isFrozen (intersection flags s b) = false
      ∧ intersection flags (freeze s) b = intersection flags s b) ∧
    (isFrozen (difference flags s b) = false
      ∧ difference flags (freeze s) b = difference flags s b) ∧
    (isFrozen (symmetricDifference flags s b) = false
      ∧ symmetricDifference flags (freeze s) b = symmetricDifference flags s b) := by
  refine ⟨⟨?_, rfl⟩, ⟨?_, rfl⟩, ⟨?_, rfl⟩, ⟨rfl, rfl⟩, ⟨rfl, rfl⟩, ⟨rfl, rfl⟩,
    ⟨rfl, rfl⟩, ⟨rfl, rfl⟩⟩
  · simp [withBits, add, mkFB, isFrozen]
  · simp [without, remove, mkFB, isFrozen]
  · simp [union, withBits, add, mkFB, isFrozen]

end FlaggedBitfield
